import Mathlib

/-!
Verification of the FheGasEst cost-estimation contract
(`src/contracts/FheGasEst.sol`) against its natural-language
specification.

The Solidity contract is shallowly embedded: `uint256` values are `Nat`
with explicit overflow checks (Solidity ^0.8 reverts on overflow),
`mapping`s are total functions returning the zero value on absent keys,
`revert`/`require` failures are `Except` errors that leave the contract
state unchanged, and dynamic arrays are `List`s.
-/

namespace FheGasEst

/-- Largest value representable in a `uint256`. -/
def UINT256_MAX : Nat := 2 ^ 256 - 1

/-- The failure conditions of the contract: the two `require` messages in
`analyzeContract`/`estimateSingleOperation` and the checked-arithmetic
panic of Solidity ^0.8. -/
inductive FheError where
  | mismatchedInputLength
  | unknownOperation
  | arithmeticOverflow
deriving DecidableEq, Repr

/-- Solidity ^0.8 checked addition on `uint256`. -/
def checkedAdd (a b : Nat) : Except FheError Nat :=
  if a + b ≤ UINT256_MAX then Except.ok (a + b)
  else Except.error FheError.arithmeticOverflow

/-- Solidity ^0.8 checked multiplication on `uint256`. -/
def checkedMul (a b : Nat) : Except FheError Nat :=
  if a * b ≤ UINT256_MAX then Except.ok (a * b)
  else Except.error FheError.arithmeticOverflow

/-- `struct OperationCost` of the contract. -/
structure OperationCost where
  operationName : String
  baseCost : Nat
  perByteCost : Nat
deriving DecidableEq, Repr

/-- `struct ContractAnalysis` of the contract. -/
structure ContractAnalysis where
  contractName : String
  totalFheOps : Nat
  estimatedGas : Nat
  optimizationSuggestions : List String
deriving DecidableEq, Repr

/-- Contract addresses, modelled opaquely as naturals. -/
abbrev Address := Nat

/-- Zero value of `OperationCost`, returned by the `operationCosts`
mapping on a key that was never written. -/
def emptyCost : OperationCost := ⟨"", 0, 0⟩

/-- Zero value of `ContractAnalysis`, returned by the `contractAnalyses`
mapping on a key that was never written. -/
def emptyAnalysis : ContractAnalysis := ⟨"", 0, 0, []⟩

/-- The storage of the `FheGasEst` contract. -/
structure State where
  operationCosts : String → OperationCost
  contractAnalyses : Address → ContractAnalysis
  analyzedContracts : List Address
  analysisCount : Nat

/-- The constructor's default seeding of `operationCosts`. -/
def initialCosts : String → OperationCost := fun n =>
  if n = "FHE.add" then ⟨"FHE.add", 5000, 10⟩
  else if n = "FHE.sub" then ⟨"FHE.sub", 5000, 10⟩
  else if n = "FHE.mul" then ⟨"FHE.mul", 15000, 20⟩
  else if n = "FHE.div" then ⟨"FHE.div", 20000, 25⟩
  else if n = "FHE.gt" then ⟨"FHE.gt", 8000, 15⟩
  else if n = "FHE.lt" then ⟨"FHE.lt", 8000, 15⟩
  else if n = "FHE.eq" then ⟨"FHE.eq", 7000, 12⟩
  else if n = "FHE.ne" then ⟨"FHE.ne", 7000, 12⟩
  else if n = "FHE.and" then ⟨"FHE.and", 6000, 10⟩
  else if n = "FHE.or" then ⟨"FHE.or", 6000, 10⟩
  else if n = "FHE.not" then ⟨"FHE.not", 4000, 8⟩
  else if n = "FHE.cast" then ⟨"FHE.cast", 3000, 5⟩
  else emptyCost

/-- The contract state immediately after construction. -/
def initialState : State :=
  { operationCosts := initialCosts
    contractAnalyses := fun _ => emptyAnalysis
    analyzedContracts := []
    analysisCount := 0 }

/-- `updateOperationCost`: unconditionally replaces the registry entry. -/
def updateOperationCost (s : State) (operation : String)
    (baseCost perByteCost : Nat) : State :=
  { s with operationCosts := fun n =>
      if n = operation then ⟨operation, baseCost, perByteCost⟩
      else s.operationCosts n }

/-- The suggestion string built by `analyzeContract` via
`abi.encodePacked` and `Strings.toString`. -/
def mkSuggestion (operation : String) (count : Nat) : String :=
  "Consider reducing calls to " ++ operation ++ " (" ++ toString count
    ++ " calls)"

/-- The loop body of `analyzeContract`, iterated over the positionally
paired `operations[i]`/`operationCounts[i]`, carrying the accumulators
`totalGas`, `totalOps` and `suggestions`. Every arithmetic step is
overflow-checked, and an unregistered operation (zero `baseCost`)
aborts with `unknownOperation` before any arithmetic for it runs. -/
def analyzeLoop (costs : String → OperationCost) (avgDataSize : Nat) :
    List (String × Nat) → Nat → Nat → List String →
    Except FheError (Nat × Nat × List String)
  | [], totalGas, totalOps, suggestions =>
      Except.ok (totalGas, totalOps, suggestions)
  | (op, count) :: rest, totalGas, totalOps, suggestions =>
      let cost := costs op
      if 0 < cost.baseCost then
        match checkedMul cost.perByteCost avgDataSize with
        | Except.error e => Except.error e
        | Except.ok pb =>
          match checkedAdd cost.baseCost pb with
          | Except.error e => Except.error e
          | Except.ok opGas =>
            match checkedMul opGas count with
            | Except.error e => Except.error e
            | Except.ok term =>
              match checkedAdd totalGas term with
              | Except.error e => Except.error e
              | Except.ok totalGas2 =>
                match checkedAdd totalOps count with
                | Except.error e => Except.error e
                | Except.ok totalOps2 =>
                  let suggestions2 :=
                    if 10000 < cost.baseCost ∧ 5 < count then
                      suggestions ++ [mkSuggestion op count]
                    else suggestions
                  analyzeLoop costs avgDataSize rest totalGas2 totalOps2
                    suggestions2
      else Except.error FheError.unknownOperation

/-- `analyzeContract`. Returns the state after the call together with
the call's outcome: on any failure (a `require` revert or an arithmetic
panic) the whole transaction rolls back, so the returned state is the
input state. -/
def analyzeContract (s : State) (contractAddress : Address)
    (contractName : String) (operations : List String)
    (operationCounts : List Nat) (avgDataSize : Nat) :
    State × Except FheError ContractAnalysis :=
  if operations.length = operationCounts.length then
    match analyzeLoop s.operationCosts avgDataSize
        (operations.zip operationCounts) 0 0 [] with
    | Except.error e => (s, Except.error e)
    | Except.ok (totalGas, totalOps, suggestions) =>
        let analysis : ContractAnalysis :=
          ⟨contractName, totalOps, totalGas, suggestions⟩
        ({ s with
            contractAnalyses := fun a =>
              if a = contractAddress then analysis
              else s.contractAnalyses a
            analyzedContracts := s.analyzedContracts ++ [contractAddress]
            analysisCount := s.analysisCount + 1 },
          Except.ok analysis)
  else (s, Except.error FheError.mismatchedInputLength)

/-- `getAnalysis`: plain mapping read (absence yields the zero value). -/
def getAnalysis (s : State) (contractAddress : Address) :
    ContractAnalysis :=
  s.contractAnalyses contractAddress

/-- `estimateSingleOperation`. -/
def estimateSingleOperation (s : State) (operation : String)
    (dataSize : Nat) : Except FheError Nat :=
  let cost := s.operationCosts operation
  if 0 < cost.baseCost then
    match checkedMul cost.perByteCost dataSize with
    | Except.error e => Except.error e
    | Except.ok pb => checkedAdd cost.baseCost pb
  else Except.error FheError.unknownOperation

/-- `getAllAnalyzedContracts`: the append log of analyzed subjects. -/
def getAllAnalyzedContracts (s : State) : List Address :=
  s.analyzedContracts

/-! ## Specification-side arithmetic on a batch

These definitions restate, as plain unbounded `Nat` arithmetic, the
quantities the spec says `analyzeContract` computes; the theorems below
relate them to the embedded code. -/

/-- Gas of one invocation of `op` at average data size `avgDataSize`. -/
def opGasOf (costs : String → OperationCost) (avgDataSize : Nat)
    (op : String) : Nat :=
  (costs op).baseCost + (costs op).perByteCost * avgDataSize

/-- `(baseCost_i + perByteCost_i * avgDataSize) * counts_i`. -/
def termOf (costs : String → OperationCost) (avgDataSize : Nat)
    (p : String × Nat) : Nat :=
  opGasOf costs avgDataSize p.1 * p.2

/-- `Σ_i (baseCost_i + perByteCost_i * avgDataSize) * counts_i`. -/
def gasSum (costs : String → OperationCost) (avgDataSize : Nat)
    (l : List (String × Nat)) : Nat :=
  (l.map (termOf costs avgDataSize)).sum

/-- Sum of all counts of a batch. -/
def opsSum (l : List (String × Nat)) : Nat :=
  (l.map Prod.snd).sum

/-- The suggestion rule: an operation is flagged iff its base cost
exceeds 10000 and its count exceeds 5. -/
def flaggedP (costs : String → OperationCost) (p : String × Nat) : Prop :=
  10000 < (costs p.1).baseCost ∧ 5 < p.2

instance (costs : String → OperationCost) (p : String × Nat) :
    Decidable (flaggedP costs p) := by
  unfold flaggedP; infer_instance

/-- The suggestion list the spec prescribes: one suggestion per flagged
operation, in input order. -/
def suggSpec (costs : String → OperationCost) (l : List (String × Nat)) :
    List String :=
  (l.filter (fun p => decide (flaggedP costs p))).map
    (fun p => mkSuggestion p.1 p.2)

/-- All intermediate arithmetic of a batch fits in `uint256`: every
per-operation gas, the final gas total and the final operation count
are representable. -/
def fits (costs : String → OperationCost) (avgDataSize : Nat)
    (l : List (String × Nat)) : Prop :=
  (∀ p ∈ l, opGasOf costs avgDataSize p.1 ≤ UINT256_MAX) ∧
    gasSum costs avgDataSize l ≤ UINT256_MAX ∧
    opsSum l ≤ UINT256_MAX

instance (costs : String → OperationCost) (avgDataSize : Nat)
    (l : List (String × Nat)) :
    Decidable (fits costs avgDataSize l) := by
  unfold fits; infer_instance

/-- The reachable contract states: the constructed state, closed under
the two state-changing entry points (`updateOperationCost` and
`analyzeContract`; the views `getAnalysis`, `estimateSingleOperation`
and `getAllAnalyzedContracts` never change state). A failing
`analyzeContract` call is covered too: its post-state is the unchanged
input state. -/
inductive Reachable : State → Prop where
  | init : Reachable initialState
  | update (s : State) (operation : String) (baseCost perByteCost : Nat) :
      Reachable s →
      Reachable (updateOperationCost s operation baseCost perByteCost)
  | analyze (s : State) (addr : Address) (nm : String)
      (ops : List String) (cnts : List Nat) (avg : Nat) :
      Reachable s →
      Reachable (analyzeContract s addr nm ops cnts avg).1

/-! ## Helper lemmas -/

theorem checkedAdd_ok {a b : Nat} (h : a + b ≤ UINT256_MAX) :
    checkedAdd a b = Except.ok (a + b) := by
  simp [checkedAdd, h]

theorem checkedMul_ok {a b : Nat} (h : a * b ≤ UINT256_MAX) :
    checkedMul a b = Except.ok (a * b) := by
  simp [checkedMul, h]

theorem checkedAdd_ok_inv {a b v : Nat}
    (h : checkedAdd a b = Except.ok v) :
    a + b ≤ UINT256_MAX ∧ v = a + b := by
  unfold checkedAdd at h
  split at h <;> simp_all

theorem checkedMul_ok_inv {a b v : Nat}
    (h : checkedMul a b = Except.ok v) :
    a * b ≤ UINT256_MAX ∧ v = a * b := by
  unfold checkedMul at h
  split at h <;> simp_all

theorem checkedAdd_err_inv {a b : Nat} {e : FheError}
    (h : checkedAdd a b = Except.error e) :
    e = FheError.arithmeticOverflow := by
  unfold checkedAdd at h
  split at h <;> simp_all

theorem checkedMul_err_inv {a b : Nat} {e : FheError}
    (h : checkedMul a b = Except.error e) :
    e = FheError.arithmeticOverflow := by
  unfold checkedMul at h
  split at h <;> simp_all

theorem gasSum_cons (costs : String → OperationCost) (avg : Nat)
    (p : String × Nat) (rest : List (String × Nat)) :
    gasSum costs avg (p :: rest) =
      termOf costs avg p + gasSum costs avg rest := by
  simp [gasSum]

theorem opsSum_cons (p : String × Nat) (rest : List (String × Nat)) :
    opsSum (p :: rest) = p.2 + opsSum rest := by
  simp [opsSum]

theorem suggSpec_cons (costs : String → OperationCost) (p : String × Nat)
    (rest : List (String × Nat)) :
    suggSpec costs (p :: rest) =
      (if flaggedP costs p then [mkSuggestion p.1 p.2] else []) ++
        suggSpec costs rest := by
  by_cases h : flaggedP costs p <;>
    simp [suggSpec, List.filter_cons, h]

/-- Forward run of the loop: when every operation of the batch is
registered and all intermediate arithmetic fits in `uint256`, the loop
succeeds and returns exactly the spec-side sums and suggestions, on top
of whatever is already in the accumulators. -/
theorem analyzeLoop_ok (costs : String → OperationCost) (avg : Nat) :
    ∀ (l : List (String × Nat)) (g o : Nat) (sg : List String),
    (∀ p ∈ l, 0 < (costs p.1).baseCost) →
    (∀ p ∈ l, opGasOf costs avg p.1 ≤ UINT256_MAX) →
    g + gasSum costs avg l ≤ UINT256_MAX →
    o + opsSum l ≤ UINT256_MAX →
    analyzeLoop costs avg l g o sg =
      Except.ok (g + gasSum costs avg l, o + opsSum l,
        sg ++ suggSpec costs l) := by
  intro l
  induction l with
  | nil =>
      intro g o sg _ _ _ _
      simp [analyzeLoop, gasSum, opsSum, suggSpec]
  | cons p rest ih =>
      obtain ⟨op, c⟩ := p
      intro g o sg hreg hfit hg ho
      have h0 : 0 < (costs op).baseCost := hreg _ (List.mem_cons_self _ _)
      have hop : opGasOf costs avg op ≤ UINT256_MAX :=
        hfit _ (List.mem_cons_self _ _)
      have hterm : termOf costs avg (op, c) ≤ UINT256_MAX := by
        have := hg
        rw [gasSum_cons] at this
        omega
      have hmul1 : (costs op).perByteCost * avg ≤ UINT256_MAX := by
        unfold opGasOf at hop
        omega
      have hgterm : g + termOf costs avg (op, c) ≤ UINT256_MAX := by
        have := hg
        rw [gasSum_cons] at this
        omega
      have hoc : o + c ≤ UINT256_MAX := by
        have := ho
        rw [opsSum_cons] at this
        omega
      have e1 : checkedMul (costs op).perByteCost avg =
          Except.ok ((costs op).perByteCost * avg) := checkedMul_ok hmul1
      have e2 : checkedAdd (costs op).baseCost
          ((costs op).perByteCost * avg) =
          Except.ok (opGasOf costs avg op) := by
        unfold opGasOf at hop ⊢
        exact checkedAdd_ok hop
      have e3 : checkedMul (opGasOf costs avg op) c =
          Except.ok (termOf costs avg (op, c)) := by
        unfold termOf at hterm ⊢
        exact checkedMul_ok hterm
      have e4 : checkedAdd g (termOf costs avg (op, c)) =
          Except.ok (g + termOf costs avg (op, c)) := checkedAdd_ok hgterm
      have e5 : checkedAdd o c = Except.ok (o + c) := checkedAdd_ok hoc
      rw [analyzeLoop]
      simp only [if_pos h0, e1, e2, e3, e4, e5]
      have hg2 : g + termOf costs avg (op, c) + gasSum costs avg rest
          ≤ UINT256_MAX := by
        have := hg
        rw [gasSum_cons] at this
        omega
      have ho2 : o + c + opsSum rest ≤ UINT256_MAX := by
        have := ho
        rw [opsSum_cons] at this
        omega
      rw [ih _ _ _ (fun q hq => hreg q (List.mem_cons_of_mem _ hq))
        (fun q hq => hfit q (List.mem_cons_of_mem _ hq)) hg2 ho2]
      rw [gasSum_cons, opsSum_cons, suggSpec_cons]
      by_cases hf : flaggedP costs (op, c)
      · have hf2 : 10000 < (costs op).baseCost ∧ 5 < c := hf
        rw [if_pos hf2, if_pos hf]
        simp [Nat.add_assoc]
      · have hf2 : ¬ (10000 < (costs op).baseCost ∧ 5 < c) := hf
        rw [if_neg hf2, if_neg hf]
        simp [Nat.add_assoc]

theorem gasSum_nil (costs : String → OperationCost) (avg : Nat) :
    gasSum costs avg [] = 0 := by
  simp [gasSum]

theorem opsSum_nil : opsSum [] = 0 := by
  simp [opsSum]

theorem suggSpec_nil (costs : String → OperationCost) :
    suggSpec costs [] = [] := by
  simp [suggSpec]

/-- Inversion of a successful loop run: success forces every operation
to be registered, every intermediate value to fit in `uint256` (for a
nonempty batch), and the result to be exactly the spec-side sums and
suggestions. -/
theorem analyzeLoop_ok_inv (costs : String → OperationCost) (avg : Nat) :
    ∀ (l : List (String × Nat)) (g o : Nat) (sg : List String)
      (r : Nat × Nat × List String),
    analyzeLoop costs avg l g o sg = Except.ok r →
    (∀ p ∈ l, 0 < (costs p.1).baseCost ∧
        opGasOf costs avg p.1 ≤ UINT256_MAX) ∧
    (l = [] ∨ (g + gasSum costs avg l ≤ UINT256_MAX ∧
        o + opsSum l ≤ UINT256_MAX)) ∧
    r = (g + gasSum costs avg l, o + opsSum l, sg ++ suggSpec costs l) := by
  intro l
  induction l with
  | nil =>
      intro g o sg r h
      rw [analyzeLoop] at h
      refine ⟨by simp, Or.inl rfl, ?_⟩
      rw [gasSum_nil, opsSum_nil, suggSpec_nil]
      cases h
      simp
  | cons p rest ih =>
      obtain ⟨op, c⟩ := p
      intro g o sg r h
      rw [analyzeLoop] at h
      by_cases h0 : 0 < (costs op).baseCost
      · rw [if_pos h0] at h
        cases hm1 : checkedMul (costs op).perByteCost avg with
        | error e =>
            simp only [hm1] at h
            exact Except.noConfusion h
        | ok pb =>
          simp only [hm1] at h
          obtain ⟨hb1, hpb⟩ := checkedMul_ok_inv hm1
          subst hpb
          cases hm2 : checkedAdd (costs op).baseCost
              ((costs op).perByteCost * avg) with
          | error e =>
            simp only [hm2] at h
            exact Except.noConfusion h
          | ok opGas =>
            simp only [hm2] at h
            obtain ⟨hb2, hopGas⟩ := checkedAdd_ok_inv hm2
            subst hopGas
            cases hm3 : checkedMul
                ((costs op).baseCost + (costs op).perByteCost * avg) c with
            | error e =>
            simp only [hm3] at h
            exact Except.noConfusion h
            | ok term =>
              simp only [hm3] at h
              obtain ⟨hb3, hterm⟩ := checkedMul_ok_inv hm3
              subst hterm
              cases hm4 : checkedAdd g
                  (((costs op).baseCost + (costs op).perByteCost * avg)
                    * c) with
              | error e =>
            simp only [hm4] at h
            exact Except.noConfusion h
              | ok tg2 =>
                simp only [hm4] at h
                obtain ⟨hb4, htg2⟩ := checkedAdd_ok_inv hm4
                subst htg2
                cases hm5 : checkedAdd o c with
                | error e =>
            simp only [hm5] at h
            exact Except.noConfusion h
                | ok to2 =>
                  simp only [hm5] at h
                  obtain ⟨hb5, hto2⟩ := checkedAdd_ok_inv hm5
                  subst hto2
                  obtain ⟨ihmem, ihbound, ihr⟩ := ih _ _ _ _ h
                  have htermOf : termOf costs avg (op, c) =
                      ((costs op).baseCost + (costs op).perByteCost * avg)
                        * c := by
                    simp [termOf, opGasOf]
                  refine ⟨?_, Or.inr ?_, ?_⟩
                  · intro q hq
                    rcases List.mem_cons.mp hq with hq | hq
                    · subst hq
                      exact ⟨h0, hb2⟩
                    · exact ihmem q hq
                  · rw [gasSum_cons, opsSum_cons, htermOf]
                    rcases ihbound with hrest | ⟨hbg, hbo⟩
                    · subst hrest
                      rw [gasSum_nil, opsSum_nil]
                      constructor <;> omega
                    · constructor <;> omega
                  · rw [ihr, gasSum_cons, opsSum_cons, suggSpec_cons,
                      htermOf]
                    by_cases hf : flaggedP costs (op, c)
                    · have hf2 : 10000 < (costs op).baseCost ∧ 5 < c := hf
                      rw [if_pos hf2, if_pos hf]
                      simp [Nat.add_assoc]
                    · have hf2 : ¬ (10000 < (costs op).baseCost ∧ 5 < c) :=
                        hf
                      rw [if_neg hf2, if_neg hf]
                      simp [Nat.add_assoc]
      · rw [if_neg h0] at h
        cases h

/-- A batch containing an unregistered operation can never make the
loop succeed: some error is produced. -/
theorem analyzeLoop_err_of_unreg (costs : String → OperationCost)
    (avg : Nat) :
    ∀ (l : List (String × Nat)) (g o : Nat) (sg : List String),
    (∃ p ∈ l, (costs p.1).baseCost = 0) →
    ∃ e, analyzeLoop costs avg l g o sg = Except.error e := by
  intro l
  induction l with
  | nil =>
      intro g o sg h
      obtain ⟨p, hp, _⟩ := h
      exact absurd hp (List.not_mem_nil p)
  | cons p rest ih =>
      obtain ⟨op, c⟩ := p
      intro g o sg h
      by_cases h0 : 0 < (costs op).baseCost
      · have hrest : ∃ q ∈ rest, (costs q.1).baseCost = 0 := by
          obtain ⟨q, hq, hq0⟩ := h
          rcases List.mem_cons.mp hq with hq | hq
          · subst hq
            exact absurd hq0 (Nat.pos_iff_ne_zero.mp h0)
          · exact ⟨q, hq, hq0⟩
        rw [analyzeLoop, if_pos h0]
        cases hm1 : checkedMul (costs op).perByteCost avg with
        | error e => exact ⟨e, by simp only [hm1]⟩
        | ok pb =>
          simp only [hm1]
          cases hm2 : checkedAdd (costs op).baseCost pb with
          | error e => exact ⟨e, by simp only [hm2]⟩
          | ok opGas =>
            simp only [hm2]
            cases hm3 : checkedMul opGas c with
            | error e => exact ⟨e, by simp only [hm3]⟩
            | ok term =>
              simp only [hm3]
              cases hm4 : checkedAdd g term with
              | error e => exact ⟨e, by simp only [hm4]⟩
              | ok tg2 =>
                simp only [hm4]
                cases hm5 : checkedAdd o c with
                | error e => exact ⟨e, by simp only [hm5]⟩
                | ok to2 =>
                  simp only [hm5]
                  exact ih _ _ _ hrest
      · exact ⟨FheError.unknownOperation, by rw [analyzeLoop, if_neg h0]⟩

/-- When the whole batch's arithmetic fits in `uint256`, the first
unregistered operation is reached before any overflow, so the loop
fails with `unknownOperation` exactly. -/
theorem analyzeLoop_unknown_of_fits (costs : String → OperationCost)
    (avg : Nat) :
    ∀ (l : List (String × Nat)) (g o : Nat) (sg : List String),
    (∀ p ∈ l, opGasOf costs avg p.1 ≤ UINT256_MAX) →
    g + gasSum costs avg l ≤ UINT256_MAX →
    o + opsSum l ≤ UINT256_MAX →
    (∃ p ∈ l, (costs p.1).baseCost = 0) →
    analyzeLoop costs avg l g o sg =
      Except.error FheError.unknownOperation := by
  intro l
  induction l with
  | nil =>
      intro g o sg _ _ _ h
      obtain ⟨p, hp, _⟩ := h
      exact absurd hp (List.not_mem_nil p)
  | cons p rest ih =>
      obtain ⟨op, c⟩ := p
      intro g o sg hfit hg ho h
      by_cases h0 : 0 < (costs op).baseCost
      · have hrest : ∃ q ∈ rest, (costs q.1).baseCost = 0 := by
          obtain ⟨q, hq, hq0⟩ := h
          rcases List.mem_cons.mp hq with hq | hq
          · subst hq
            exact absurd hq0 (Nat.pos_iff_ne_zero.mp h0)
          · exact ⟨q, hq, hq0⟩
        have hop : opGasOf costs avg op ≤ UINT256_MAX :=
          hfit _ (List.mem_cons_self _ _)
        have hterm : termOf costs avg (op, c) ≤ UINT256_MAX := by
          have := hg
          rw [gasSum_cons] at this
          omega
        have hmul1 : (costs op).perByteCost * avg ≤ UINT256_MAX := by
          unfold opGasOf at hop
          omega
        have hgterm : g + termOf costs avg (op, c) ≤ UINT256_MAX := by
          have := hg
          rw [gasSum_cons] at this
          omega
        have hoc : o + c ≤ UINT256_MAX := by
          have := ho
          rw [opsSum_cons] at this
          omega
        have e1 : checkedMul (costs op).perByteCost avg =
            Except.ok ((costs op).perByteCost * avg) := checkedMul_ok hmul1
        have e2 : checkedAdd (costs op).baseCost
            ((costs op).perByteCost * avg) =
            Except.ok (opGasOf costs avg op) := by
          unfold opGasOf at hop ⊢
          exact checkedAdd_ok hop
        have e3 : checkedMul (opGasOf costs avg op) c =
            Except.ok (termOf costs avg (op, c)) := by
          unfold termOf at hterm ⊢
          exact checkedMul_ok hterm
        have e4 : checkedAdd g (termOf costs avg (op, c)) =
            Except.ok (g + termOf costs avg (op, c)) := checkedAdd_ok hgterm
        have e5 : checkedAdd o c = Except.ok (o + c) := checkedAdd_ok hoc
        rw [analyzeLoop]
        simp only [if_pos h0, e1, e2, e3, e4, e5]
        have hg2 : g + termOf costs avg (op, c) + gasSum costs avg rest
            ≤ UINT256_MAX := by
          have := hg
          rw [gasSum_cons] at this
          omega
        have ho2 : o + c + opsSum rest ≤ UINT256_MAX := by
          have := ho
          rw [opsSum_cons] at this
          omega
        exact ih _ _ _ (fun q hq => hfit q (List.mem_cons_of_mem _ hq))
          hg2 ho2 hrest
      · rw [analyzeLoop, if_neg h0]

/-- Error classification: over a fully registered batch the only error
the loop can raise is `arithmeticOverflow`. -/
theorem analyzeLoop_err_reg (costs : String → OperationCost)
    (avg : Nat) :
    ∀ (l : List (String × Nat)) (g o : Nat) (sg : List String)
      (e : FheError),
    (∀ p ∈ l, 0 < (costs p.1).baseCost) →
    analyzeLoop costs avg l g o sg = Except.error e →
    e = FheError.arithmeticOverflow := by
  intro l
  induction l with
  | nil =>
      intro g o sg e _ h
      rw [analyzeLoop] at h
      exact Except.noConfusion h
  | cons p rest ih =>
      obtain ⟨op, c⟩ := p
      intro g o sg e hreg h
      have h0 : 0 < (costs op).baseCost := hreg _ (List.mem_cons_self _ _)
      rw [analyzeLoop, if_pos h0] at h
      cases hm1 : checkedMul (costs op).perByteCost avg with
      | error e2 =>
          simp only [hm1] at h
          cases h
          exact checkedMul_err_inv hm1
      | ok pb =>
        simp only [hm1] at h
        cases hm2 : checkedAdd (costs op).baseCost pb with
        | error e2 =>
            simp only [hm2] at h
            cases h
            exact checkedAdd_err_inv hm2
        | ok opGas =>
          simp only [hm2] at h
          cases hm3 : checkedMul opGas c with
          | error e2 =>
              simp only [hm3] at h
              cases h
              exact checkedMul_err_inv hm3
          | ok term =>
            simp only [hm3] at h
            cases hm4 : checkedAdd g term with
            | error e2 =>
                simp only [hm4] at h
                cases h
                exact checkedAdd_err_inv hm4
            | ok tg2 =>
              simp only [hm4] at h
              cases hm5 : checkedAdd o c with
              | error e2 =>
                  simp only [hm5] at h
                  cases h
                  exact checkedAdd_err_inv hm5
              | ok to2 =>
                simp only [hm5] at h
                exact ih _ _ _ _
                  (fun q hq => hreg q (List.mem_cons_of_mem _ hq)) h

/-- State change of a successful `analyzeContract` call: overwrite of
the keyed mapping at the subject, append of the subject to the log,
increment of the counter, registry untouched. -/
theorem analyzeContract_ok_state (s : State) (addr : Address)
    (nm : String) (ops : List String) (cnts : List Nat) (avg : Nat)
    (s2 : State) (a : ContractAnalysis)
    (h : analyzeContract s addr nm ops cnts avg = (s2, Except.ok a)) :
    s2.operationCosts = s.operationCosts ∧
    s2.contractAnalyses =
      (fun x => if x = addr then a else s.contractAnalyses x) ∧
    s2.analyzedContracts = s.analyzedContracts ++ [addr] ∧
    s2.analysisCount = s.analysisCount + 1 := by
  unfold analyzeContract at h
  split at h
  · cases hl : analyzeLoop s.operationCosts avg (ops.zip cnts) 0 0 [] with
    | error e =>
        simp only [hl] at h
        exact absurd (congrArg Prod.snd h) (by simp)
    | ok r =>
        obtain ⟨tg, tops, sg⟩ := r
        simp only [hl] at h
        have hs2 := congrArg Prod.fst h
        have ha := congrArg Prod.snd h
        simp only at hs2 ha
        obtain rfl : (⟨nm, tops, tg, sg⟩ : ContractAnalysis) = a := by
          simpa using ha
        subst hs2
        exact ⟨rfl, rfl, rfl, rfl⟩
  · exact absurd (congrArg Prod.snd h) (by simp)

/-- Result inversion of a successful `analyzeContract` call: success
forces matching input lengths, registration of every operation,
representability of all the arithmetic, and the returned analysis is
exactly the spec-side aggregation. -/
theorem analyzeContract_ok_inv (s : State) (addr : Address) (nm : String)
    (ops : List String) (cnts : List Nat) (avg : Nat)
    (a : ContractAnalysis)
    (h : (analyzeContract s addr nm ops cnts avg).2 = Except.ok a) :
    ops.length = cnts.length ∧
    (∀ p ∈ ops.zip cnts, 0 < (s.operationCosts p.1).baseCost) ∧
    fits s.operationCosts avg (ops.zip cnts) ∧
    a = ⟨nm, opsSum (ops.zip cnts),
      gasSum s.operationCosts avg (ops.zip cnts),
      suggSpec s.operationCosts (ops.zip cnts)⟩ := by
  unfold analyzeContract at h
  split at h
  case isTrue hlen =>
    cases hl : analyzeLoop s.operationCosts avg (ops.zip cnts) 0 0 [] with
    | error e =>
        rw [hl] at h
        simp at h
    | ok r =>
        obtain ⟨tg, tops, sg⟩ := r
        rw [hl] at h
        simp only at h
        obtain ⟨hmem, hbound, hr⟩ :=
          analyzeLoop_ok_inv s.operationCosts avg _ _ _ _ _ hl
        obtain ⟨htg, hto, hsg⟩ : tg = gasSum s.operationCosts avg
            (ops.zip cnts) ∧ tops = opsSum (ops.zip cnts) ∧
            sg = suggSpec s.operationCosts (ops.zip cnts) := by
          have h1 := congrArg Prod.fst hr
          have h2 := congrArg (fun q => q.2.1) hr
          have h3 := congrArg (fun q => q.2.2) hr
          simp at h1 h2 h3
          exact ⟨h1, h2, h3⟩
        subst htg hto hsg
        refine ⟨hlen, fun p hp => (hmem p hp).1, ⟨fun p hp => (hmem p hp).2,
          ?_, ?_⟩, by simpa using h.symm⟩
        · rcases hbound with hnil | ⟨hb, _⟩
          · rw [hnil, gasSum_nil]
            exact Nat.zero_le _
          · omega
        · rcases hbound with hnil | ⟨_, hb⟩
          · rw [hnil, opsSum_nil]
            exact Nat.zero_le _
          · omega
  case isFalse hlen =>
    simp at h

/-- Forward run of a successful `analyzeContract` call. -/
theorem analyzeContract_ok (s : State) (addr : Address) (nm : String)
    (ops : List String) (cnts : List Nat) (avg : Nat)
    (hlen : ops.length = cnts.length)
    (hreg : ∀ p ∈ ops.zip cnts, 0 < (s.operationCosts p.1).baseCost)
    (hfits : fits s.operationCosts avg (ops.zip cnts)) :
    analyzeContract s addr nm ops cnts avg =
      ({ s with
          contractAnalyses := fun x =>
            if x = addr then
              ⟨nm, opsSum (ops.zip cnts),
                gasSum s.operationCosts avg (ops.zip cnts),
                suggSpec s.operationCosts (ops.zip cnts)⟩
            else s.contractAnalyses x
          analyzedContracts := s.analyzedContracts ++ [addr]
          analysisCount := s.analysisCount + 1 },
        Except.ok ⟨nm, opsSum (ops.zip cnts),
          gasSum s.operationCosts avg (ops.zip cnts),
          suggSpec s.operationCosts (ops.zip cnts)⟩) := by
  obtain ⟨hfit1, hfit2, hfit3⟩ := hfits
  have hl := analyzeLoop_ok s.operationCosts avg (ops.zip cnts) 0 0 []
    hreg hfit1 (by omega) (by omega)
  unfold analyzeContract
  rw [if_pos hlen, hl]
  simp

/-- `estimateSingleOperation` on a registered operation whose gas fits
in `uint256` returns `baseCost + perByteCost * dataSize`. -/
theorem estimateSingleOperation_ok (s : State) (name : String)
    (ds : Nat) (hreg : 0 < (s.operationCosts name).baseCost)
    (hfit : (s.operationCosts name).baseCost +
      (s.operationCosts name).perByteCost * ds ≤ UINT256_MAX) :
    estimateSingleOperation s name ds =
      Except.ok ((s.operationCosts name).baseCost +
        (s.operationCosts name).perByteCost * ds) := by
  have hmul : (s.operationCosts name).perByteCost * ds ≤ UINT256_MAX := by
    omega
  unfold estimateSingleOperation
  rw [if_pos hreg]
  simp only [checkedMul_ok hmul]
  exact checkedAdd_ok hfit

/-- `estimateSingleOperation` on a registered operation whose gas does
not fit in `uint256` fails with `arithmeticOverflow`. -/
theorem estimateSingleOperation_overflow (s : State) (name : String)
    (ds : Nat) (hreg : 0 < (s.operationCosts name).baseCost)
    (hover : UINT256_MAX < (s.operationCosts name).baseCost +
      (s.operationCosts name).perByteCost * ds) :
    estimateSingleOperation s name ds =
      Except.error FheError.arithmeticOverflow := by
  unfold estimateSingleOperation
  rw [if_pos hreg]
  by_cases hmul : (s.operationCosts name).perByteCost * ds ≤ UINT256_MAX
  · simp only [checkedMul_ok hmul]
    unfold checkedAdd
    rw [if_neg (by omega)]
  · have : checkedMul (s.operationCosts name).perByteCost ds =
        Except.error FheError.arithmeticOverflow := by
      unfold checkedMul
      rw [if_neg hmul]
    simp only [this]

/-- Success of the loop started on empty accumulators implies that all
of the batch's arithmetic fits in `uint256`. -/
theorem analyzeLoop_ok_fits (costs : String → OperationCost) (avg : Nat)
    (l : List (String × Nat)) (r : Nat × Nat × List String)
    (h : analyzeLoop costs avg l 0 0 [] = Except.ok r) :
    fits costs avg l := by
  obtain ⟨hmem, hbound, _⟩ := analyzeLoop_ok_inv costs avg l 0 0 [] r h
  refine ⟨fun p hp => (hmem p hp).2, ?_, ?_⟩
  · rcases hbound with hnil | ⟨hb, _⟩
    · rw [hnil, gasSum_nil]
      exact Nat.zero_le _
    · omega
  · rcases hbound with hnil | ⟨_, hb⟩
    · rw [hnil, opsSum_nil]
      exact Nat.zero_le _
    · omega

/-- Summing the second components of a zip of equal-length lists sums
the second list. -/
theorem opsSum_zip (ops : List String) (cnts : List Nat)
    (hlen : ops.length = cnts.length) :
    opsSum (ops.zip cnts) = cnts.sum := by
  induction ops generalizing cnts with
  | nil =>
      cases cnts with
      | nil => rfl
      | cons c cs => simp at hlen
  | cons o os ih =>
      cases cnts with
      | nil => simp at hlen
      | cons c cs =>
          rw [List.zip_cons_cons, opsSum_cons, List.sum_cons,
            ih cs (by simpa using hlen)]

/-- An element of the first list of an equal-length zip appears in the
zip paired with some count. -/
theorem exists_pair_mem_zip {ops : List String} {cnts : List Nat}
    (hlen : ops.length = cnts.length) {op : String} (hop : op ∈ ops) :
    ∃ c, (op, c) ∈ ops.zip cnts := by
  induction ops generalizing cnts with
  | nil => exact absurd hop (List.not_mem_nil op)
  | cons o os ih =>
      cases cnts with
      | nil => simp at hlen
      | cons c cs =>
          rcases List.mem_cons.mp hop with hop | hop
          · subst hop
            exact ⟨c, List.mem_cons_self _ _⟩
          · obtain ⟨c2, hc2⟩ := ih (by simpa using hlen) hop
            exact ⟨c2, List.mem_cons_of_mem _ hc2⟩

/-! ## Claim theorems -/

/-- Claim C1, counterexample. The claim asserts that every usage report
with matching lengths and only registered operations makes `analyze`
return a `ContractAnalysis` with the stated sums. On the batch
`operations = ["FHE.add"]`, `counts = [2^256 - 1]`, `avgDataSize = 0`
(lengths match, the operation is registered) the accumulation
`totalGas += opGas * count` overflows `uint256`, so the call reverts
with an arithmetic panic and returns no analysis at all. -/
theorem c1_claim_counterexample :
    (["FHE.add"] : List String).length = ([UINT256_MAX] : List Nat).length
      ∧
    0 < (initialState.operationCosts "FHE.add").baseCost ∧
    (analyzeContract initialState 1 "A" ["FHE.add"] [UINT256_MAX] 0).2 =
      Except.error FheError.arithmeticOverflow :=
  ⟨rfl, by decide, rfl⟩

/-- Claim C1, amended: for every usage report with matching lengths in
which every listed operation is registered AND whose arithmetic fits in
`uint256` (no per-operation gas, gas total or count total exceeds
`2^256 - 1`), `analyze` succeeds and returns estimatedGas equal to
`Σ_i (baseCost_i + perByteCost_i * avgDataSize) * counts_i` (the
`gasSum` of the registry entries over the paired batch) and totalFheOps
equal to the sum of all counts. -/
theorem c1_analyze_totals (s : State) (addr : Address) (nm : String)
    (ops : List String) (cnts : List Nat) (avg : Nat)
    (hlen : ops.length = cnts.length)
    (hreg : ∀ p ∈ ops.zip cnts, 0 < (s.operationCosts p.1).baseCost)
    (hfits : fits s.operationCosts avg (ops.zip cnts)) :
    (analyzeContract s addr nm ops cnts avg).2 =
      Except.ok ⟨nm, cnts.sum,
        gasSum s.operationCosts avg (ops.zip cnts),
        suggSpec s.operationCosts (ops.zip cnts)⟩ := by
  have h := analyzeContract_ok s addr nm ops cnts avg hlen hreg hfits
  rw [h]
  dsimp only
  rw [opsSum_zip ops cnts hlen]

/-- Claim C1, witness: the amended theorem applied to the concrete
batch `["FHE.add"]`, `[1]`, `avgDataSize = 0` on the freshly constructed
registry, where the sums evaluate to gas `5000` and `1` operation. -/
theorem c1_analyze_totals_witness :
    (analyzeContract initialState 1 "w1" ["FHE.add"] [1] 0).2 =
      Except.ok ⟨"w1", 1, 5000, []⟩ :=
  c1_analyze_totals initialState 1 "w1" ["FHE.add"] [1] 0 rfl (by decide)
    (by decide)

/-- Claim C2: whenever `analyze` returns a `ContractAnalysis`, its
`optimizationSuggestions` is exactly the in-order map of the suggestion
string over the flagged positions of the batch — the positions whose
registry entry has `baseCost > 10000` AND whose count is `> 5`
(`suggSpec` is literally `filter flagged` then `map mkSuggestion`, so a
suggestion is present for position `i` iff that position is flagged,
one per flagged position, in input order; `baseCost = 10000` or
`count = 5` is not flagged, `baseCost = 10001` with `count = 6` is). -/
theorem c2_suggestions_iff_flagged (s : State) (addr : Address)
    (nm : String) (ops : List String) (cnts : List Nat) (avg : Nat)
    (a : ContractAnalysis)
    (h : (analyzeContract s addr nm ops cnts avg).2 = Except.ok a) :
    a.optimizationSuggestions =
      suggSpec s.operationCosts (ops.zip cnts) := by
  obtain ⟨_, _, _, ha⟩ :=
    analyzeContract_ok_inv s addr nm ops cnts avg a h
  rw [ha]

/-- Claim C2, witness: a registry holding boundary entries with base
costs `10000` and `10001`, analyzed with counts `6`, `5`, `6`: only the
`baseCost = 10001`, `count = 6` position is flagged. -/
theorem c2_suggestions_iff_flagged_witness :
    ContractAnalysis.optimizationSuggestions
      (ContractAnalysis.mk "w2" 17 170011
        ["Consider reducing calls to b10001 (6 calls)"]) =
    suggSpec (updateOperationCost
        (updateOperationCost initialState "b10000" 10000 1)
        "b10001" 10001 1).operationCosts
      (["b10000", "b10001", "b10001"].zip [6, 5, 6]) :=
  c2_suggestions_iff_flagged
    (updateOperationCost (updateOperationCost initialState "b10000"
      10000 1) "b10001" 10001 1)
    1 "w2" ["b10000", "b10001", "b10001"] [6, 5, 6] 0
    ⟨"w2", 17, 170011, ["Consider reducing calls to b10001 (6 calls)"]⟩
    (by rfl)

/-- Claim C3, counterexample. The claim names the batch operations
`"mul"` and `"add"`, but the constructor seeds the registry under the
keys `"FHE.mul"`, `"FHE.add"`, …; on the default-seeded state the key
`"mul"` is unregistered, so the claimed call reverts with the unknown
operation error instead of succeeding with gas `104480`. -/
theorem c3_claim_counterexample :
    (analyzeContract initialState 1 "C" ["mul", "add"] [6, 2] 32).2 =
      Except.error FheError.unknownOperation :=
  rfl

/-- Claim C3, amended: with the registry default-seeded, the batch
`operations = ["FHE.mul", "FHE.add"]`, `counts = [6, 2]`,
`avgDataSize = 32` (the default multiplication and addition entries,
which the spec calls `"mul"` and `"add"`) succeeds for every subject
with estimatedGas `104480 = (15000 + 20*32)*6 + (5000 + 10*32)*2`,
totalFheOps `8`, and exactly one suggestion, for the multiplication
operation, none for the addition. -/
theorem c3_default_example (addr : Address) (nm : String) :
    (analyzeContract initialState addr nm ["FHE.mul", "FHE.add"] [6, 2]
        32).2 =
      Except.ok ⟨nm, 8, 104480,
        ["Consider reducing calls to FHE.mul (6 calls)"]⟩ := by
  have h := analyzeContract_ok initialState addr nm
    ["FHE.mul", "FHE.add"] [6, 2] 32 rfl (by decide) (by decide)
  exact congrArg Prod.snd h

/-- Claim C4: a usage report whose `operations` and `counts` differ in
length makes `analyzeContract` revert with the mismatched-length error,
and the post-call state is the untouched input state: no keyed entry is
written, the append log is unchanged, the counter is unchanged. -/
theorem c4_mismatched_lengths (s : State) (addr : Address) (nm : String)
    (ops : List String) (cnts : List Nat) (avg : Nat)
    (hlen : ops.length ≠ cnts.length) :
    analyzeContract s addr nm ops cnts avg =
      (s, Except.error FheError.mismatchedInputLength) := by
  unfold analyzeContract
  rw [if_neg hlen]

/-- Claim C4, witness: one operation against zero counts. -/
theorem c4_mismatched_lengths_witness :
    analyzeContract initialState 1 "w4" ["FHE.add"] [] 0 =
      (initialState, Except.error FheError.mismatchedInputLength) :=
  c4_mismatched_lengths initialState 1 "w4" ["FHE.add"] [] 0 (by decide)

/-- Claim C5, counterexample. The claim asserts that every valid report
containing an unregistered operation fails with the unknown-operation
error. In the batch `["FHE.add", "bogus"]` with counts
`[2^256 - 1, 1]` and `avgDataSize = 0`, the operation `"bogus"` is
unregistered, yet the accumulation for the earlier registered
`"FHE.add"` overflows first, so the call fails with the arithmetic
panic, not `unknownOperation`. -/
theorem c5_claim_counterexample :
    (["FHE.add", "bogus"] : List String).length =
        ([UINT256_MAX, 1] : List Nat).length ∧
    (initialState.operationCosts "bogus").baseCost = 0 ∧
    (analyzeContract initialState 1 "B" ["FHE.add", "bogus"]
        [UINT256_MAX, 1] 0).2 =
      Except.error FheError.arithmeticOverflow ∧
    (analyzeContract initialState 1 "B" ["FHE.add", "bogus"]
        [UINT256_MAX, 1] 0).2 ≠
      Except.error FheError.unknownOperation :=
  ⟨rfl, by decide, rfl, by
    intro h
    exact absurd (Except.error.inj h) (by decide)⟩

/-- Claim C5, amended: for every length-matched usage report containing
at least one unregistered operation name, `analyzeContract` aborts the
whole batch atomically — the post-call state is the untouched input
state and no `ContractAnalysis` is produced — and, provided no
arithmetic overflow occurs (the batch's arithmetic fits in `uint256`),
the error is `unknownOperation`, regardless of how many earlier
operations in the batch were registered. -/
theorem c5_unknown_op_aborts (s : State) (addr : Address) (nm : String)
    (ops : List String) (cnts : List Nat) (avg : Nat)
    (hlen : ops.length = cnts.length)
    (hunreg : ∃ op ∈ ops, (s.operationCosts op).baseCost = 0) :
    (analyzeContract s addr nm ops cnts avg).1 = s ∧
    (∃ e, (analyzeContract s addr nm ops cnts avg).2 = Except.error e) ∧
    (fits s.operationCosts avg (ops.zip cnts) →
      (analyzeContract s addr nm ops cnts avg).2 =
        Except.error FheError.unknownOperation) := by
  obtain ⟨op, hop, h0⟩ := hunreg
  obtain ⟨c, hmem⟩ := exists_pair_mem_zip hlen hop
  have hzip : ∃ p ∈ ops.zip cnts, (s.operationCosts p.1).baseCost = 0 :=
    ⟨(op, c), hmem, h0⟩
  obtain ⟨e, herr⟩ := analyzeLoop_err_of_unreg s.operationCosts avg
    (ops.zip cnts) 0 0 [] hzip
  have hrun : analyzeContract s addr nm ops cnts avg =
      (s, Except.error e) := by
    unfold analyzeContract
    rw [if_pos hlen, herr]
  refine ⟨by rw [hrun], ⟨e, by rw [hrun]⟩, ?_⟩
  intro hfits
  obtain ⟨hfit1, hfit2, hfit3⟩ := hfits
  have herr2 := analyzeLoop_unknown_of_fits s.operationCosts avg
    (ops.zip cnts) 0 0 [] hfit1 (by omega) (by omega) hzip
  unfold analyzeContract
  rw [if_pos hlen, herr2]

/-- Claim C5, witness: a batch consisting of only the unregistered
operation `"bogus"`, whose arithmetic trivially fits, fails with the
unknown-operation error. -/
theorem c5_unknown_op_aborts_witness :
    (analyzeContract initialState 1 "w5" ["bogus"] [1] 0).2 =
      Except.error FheError.unknownOperation :=
  (c5_unknown_op_aborts initialState 1 "w5" ["bogus"] [1] 0 rfl
    ⟨"bogus", by decide, by decide⟩).2.2 (by decide)

/-- Claim C6: for every prior state, every operation name and every
data size, `updateOperationCost(name, 0, 0)` followed by
`estimateSingleOperation(name, dataSize)` fails with the
unknown-operation error: a zero `baseCost` is the absence sentinel, not
a legitimately free operation. -/
theorem c6_zero_base_is_unregistered (s : State) (name : String)
    (ds : Nat) :
    estimateSingleOperation (updateOperationCost s name 0 0) name ds =
      Except.error FheError.unknownOperation := by
  simp [estimateSingleOperation, updateOperationCost]

/-- Claim C7, counterexample. The claim asserts the estimate succeeds
for arbitrarily large data sizes, but at `dataSize = 2^256 - 1` the
registered default operation `"FHE.add"` makes
`perByteCost * dataSize` overflow `uint256`, so the call reverts with
the arithmetic panic instead of returning
`baseCost + perByteCost * dataSize`. -/
theorem c7_claim_counterexample :
    0 < (initialState.operationCosts "FHE.add").baseCost ∧
    estimateSingleOperation initialState "FHE.add" UINT256_MAX =
      Except.error FheError.arithmeticOverflow ∧
    estimateSingleOperation initialState "FHE.add" UINT256_MAX ≠
      Except.ok ((initialState.operationCosts "FHE.add").baseCost +
        (initialState.operationCosts "FHE.add").perByteCost *
          UINT256_MAX) :=
  ⟨by decide, rfl, fun h => Except.noConfusion h⟩

/-- Claim C7, amended: for every registered operation name (nonzero
`baseCost`) and every data size for which
`baseCost + perByteCost * dataSize` is representable in `uint256`,
`estimateSingleOperation` succeeds and returns exactly
`baseCost + perByteCost * dataSize`; this holds for data size 0, 1 and
any value up to the representability bound. -/
theorem c7_estimate_formula (s : State) (name : String) (ds : Nat)
    (hreg : 0 < (s.operationCosts name).baseCost)
    (hfit : (s.operationCosts name).baseCost +
      (s.operationCosts name).perByteCost * ds ≤ UINT256_MAX) :
    estimateSingleOperation s name ds =
      Except.ok ((s.operationCosts name).baseCost +
        (s.operationCosts name).perByteCost * ds) :=
  estimateSingleOperation_ok s name ds hreg hfit

/-- Claim C7, witness: the default multiplication entry at data size
32 yields `15000 + 20 * 32 = 15640`. -/
theorem c7_estimate_formula_witness :
    estimateSingleOperation initialState "FHE.mul" 32 =
      Except.ok 15640 :=
  c7_estimate_formula initialState "FHE.mul" 32 (by decide) (by decide)

/-- Claim C8: the arithmetic of `analyzeContract` (multiplication
before summation) and of `estimateSingleOperation` is overflow-checked:
on a length-matched, fully registered batch whose accumulation exceeds
`uint256` the call fails with the arithmetic-overflow error and the
state is returned untouched (no store write), and a registered single
estimate whose gas exceeds `uint256` fails the same way instead of
silently wrapping. -/
theorem c8_overflow_is_fatal (s : State) (addr : Address) (nm : String)
    (ops : List String) (cnts : List Nat) (avg : Nat) (name : String)
    (ds : Nat) (hlen : ops.length = cnts.length)
    (hreg : ∀ p ∈ ops.zip cnts, 0 < (s.operationCosts p.1).baseCost)
    (hname : 0 < (s.operationCosts name).baseCost) :
    (¬ fits s.operationCosts avg (ops.zip cnts) →
      analyzeContract s addr nm ops cnts avg =
        (s, Except.error FheError.arithmeticOverflow)) ∧
    (UINT256_MAX < (s.operationCosts name).baseCost +
        (s.operationCosts name).perByteCost * ds →
      estimateSingleOperation s name ds =
        Except.error FheError.arithmeticOverflow) := by
  constructor
  · intro hnf
    cases hl : analyzeLoop s.operationCosts avg (ops.zip cnts) 0 0 []
      with
    | ok r =>
        exact absurd (analyzeLoop_ok_fits s.operationCosts avg
          (ops.zip cnts) r hl) hnf
    | error e =>
        have he := analyzeLoop_err_reg s.operationCosts avg
          (ops.zip cnts) 0 0 [] e hreg hl
        subst he
        unfold analyzeContract
        rw [if_pos hlen, hl]
  · exact estimateSingleOperation_overflow s name ds hname

/-- Claim C8, witness: a count of `2^256 - 1` overflows the gas
accumulation of `analyzeContract`, and a data size of `2^256 - 1`
overflows `estimateSingleOperation`, both on registered default
operations. -/
theorem c8_overflow_is_fatal_witness :
    analyzeContract initialState 2 "w8" ["FHE.add"] [UINT256_MAX] 0 =
      (initialState, Except.error FheError.arithmeticOverflow) ∧
    estimateSingleOperation initialState "FHE.sub" UINT256_MAX =
      Except.error FheError.arithmeticOverflow := by
  have h := c8_overflow_is_fatal initialState 2 "w8" ["FHE.add"]
    [UINT256_MAX] 0 "FHE.sub" UINT256_MAX rfl (by decide) (by decide)
  exact ⟨h.1 (by decide), h.2 (by decide)⟩

/-- Claim C9: analyzing the same subject twice in succession (any two
successful calls) leaves `getAnalysis` returning only the second
analysis — the keyed entry is overwritten, not merged — while the
append log keeps both entries in recording order, its length growing by
exactly one per successful call. -/
theorem c9_overwrite_and_log (s s1 s2 : State) (addr : Address)
    (nm1 nm2 : String) (ops1 ops2 : List String)
    (cnts1 cnts2 : List Nat) (avg1 avg2 : Nat)
    (a1 a2 : ContractAnalysis)
    (h1 : analyzeContract s addr nm1 ops1 cnts1 avg1 =
      (s1, Except.ok a1))
    (h2 : analyzeContract s1 addr nm2 ops2 cnts2 avg2 =
      (s2, Except.ok a2)) :
    getAnalysis s2 addr = a2 ∧
    getAllAnalyzedContracts s2 =
      getAllAnalyzedContracts s ++ [addr, addr] ∧
    (getAllAnalyzedContracts s1).length =
      (getAllAnalyzedContracts s).length + 1 ∧
    (getAllAnalyzedContracts s2).length =
      (getAllAnalyzedContracts s1).length + 1 := by
  obtain ⟨_, hca1, hlog1, _⟩ :=
    analyzeContract_ok_state s addr nm1 ops1 cnts1 avg1 s1 a1 h1
  obtain ⟨_, hca2, hlog2, _⟩ :=
    analyzeContract_ok_state s1 addr nm2 ops2 cnts2 avg2 s2 a2 h2
  refine ⟨?_, ?_, ?_, ?_⟩
  · unfold getAnalysis
    rw [hca2]
    simp
  · unfold getAllAnalyzedContracts
    rw [hlog2, hlog1]
    simp
  · unfold getAllAnalyzedContracts
    rw [hlog1]
    simp
  · unfold getAllAnalyzedContracts
    rw [hlog2]
    simp

/-- Claim C9, witness: subject `7` analyzed with `["FHE.add"], [1]` and
then with `["FHE.mul"], [2]`: the keyed lookup afterwards returns only
the second analysis (gas `30000`), and the log is `[7, 7]`. -/
theorem c9_overwrite_and_log_witness :
    getAnalysis ((analyzeContract ((analyzeContract initialState 7 "n1"
        ["FHE.add"] [1] 0).1) 7 "n2" ["FHE.mul"] [2] 0).1) 7 =
      ⟨"n2", 2, 30000, []⟩ ∧
    getAllAnalyzedContracts ((analyzeContract ((analyzeContract
        initialState 7 "n1" ["FHE.add"] [1] 0).1) 7 "n2" ["FHE.mul"]
        [2] 0).1) = [7, 7] := by
  have h := c9_overwrite_and_log initialState
    ((analyzeContract initialState 7 "n1" ["FHE.add"] [1] 0).1)
    ((analyzeContract ((analyzeContract initialState 7 "n1" ["FHE.add"]
      [1] 0).1) 7 "n2" ["FHE.mul"] [2] 0).1)
    7 "n1" "n2" ["FHE.add"] ["FHE.mul"] [1] [2] 0 0
    ⟨"n1", 1, 5000, []⟩ ⟨"n2", 2, 30000, []⟩ rfl rfl
  refine ⟨h.1, ?_⟩
  rw [h.2.1]
  rfl

/-- Claim C10: in every reachable contract state the analysis counter
equals the length of the analyzed-subject append log — they start at
`0`/`[]` in the constructed state, every successful `analyzeContract`
increments both by exactly one, a failing call changes neither, and
`updateOperationCost` touches neither. -/
theorem c10_count_matches_log (s : State) (h : Reachable s) :
    s.analysisCount = s.analyzedContracts.length := by
  induction h with
  | init => rfl
  | update s2 op b p hr ih =>
      simpa [updateOperationCost] using ih
  | analyze s2 addr nm ops cnts avg hr ih =>
      unfold analyzeContract
      split
      · cases hl : analyzeLoop s2.operationCosts avg (ops.zip cnts)
          0 0 [] with
        | error e => simpa using ih
        | ok r =>
            obtain ⟨tg, tops, sg⟩ := r
            simp only [hl]
            simp [ih]
      · simpa using ih

/-- Claim C10, witness: the invariant instantiated at the state reached
by one successful analysis from the constructed state. -/
theorem c10_count_matches_log_witness :
    (analyzeContract initialState 3 "w10" ["FHE.add"] [1]
        0).1.analysisCount =
      (analyzeContract initialState 3 "w10" ["FHE.add"] [1]
        0).1.analyzedContracts.length :=
  c10_count_matches_log _
    (Reachable.analyze initialState 3 "w10" ["FHE.add"] [1] 0
      Reachable.init)

end FheGasEst
